import Mathlib

/-!
Verification of the deadline-aware scheduling core of the jarvis-ai-assistant
repository, shallowly embedded in Lean 4.

The embedding covers:
- the daily conflict resolver `generate_accurate_schedule` and its helper
  `find_available_time_slots` from `src/daily_scheduler.py`;
- the weekly conflict resolver `resolve_daily_conflicts` and its helper
  `find_available_weekly_slots` from `src/weekly_scheduler.py`;
- the recurring-task date filters `get_recurring_tasks_for_date`
  (`src/daily_scheduler.py`) and `get_recurring_tasks_for_week`
  (`src/weekly_scheduler.py`);
- the weekly distributor `_generate_weekly_schedule`, its helper
  `_find_best_day_for_task`, and the score part of its `sort_key`
  from `src/master_jarvis.py`;
- the recurrence-instance generator `_generate_recurring_instances`
  from `src/master_jarvis.py`.

Modelling conventions: clock times are minutes since midnight (the source
uses zero-padded HH:MM strings, whose lexicographic order agrees with the
numeric order); calendar dates are serial day numbers with day 0 a Monday,
so the weekday index of day d is d % 7; Python floats (estimated hours,
daily capacity) are modelled as rationals; Python `list.sort`, which is a
stable sort, is modelled by `List.insertionSort`, which is also stable.
Database access, the AI calls and terminal rendering are outside the model:
the scheduler functions are pure functions of the task lists they receive.
-/

/-! ### Tasks and schedule entries of the daily scheduler -/

/-- Model of the task dictionaries handed to `generate_accurate_schedule`
in `src/daily_scheduler.py` (keys: task, duration, preferred_time,
category, priority, type). The `preferred_time` is in minutes since
midnight, `none` when the task is flexible. -/
structure DTask where
  task : String
  duration : Nat
  preferredTime : Option Nat
  category : String
  priority : Int
  ttype : String
deriving DecidableEq

/-- Model of a schedule entry produced by `generate_accurate_schedule`
(keys: time, task, duration, category, type, priority). The duration is
kept as the number of minutes carried by the source string
`f"{duration} min"`, and the priority label as its display string. -/
structure Entry where
  time : Nat
  task : String
  duration : Nat
  category : String
  ttype : String
  priorityLabel : String
deriving DecidableEq

/-- Ordering used for `fixed_time_tasks.sort(key=lambda x: x["preferred_time"])`;
every task in that list has a preferred time, so the `getD` default is inert. -/
def fixedTimeLe (a b : DTask) : Prop :=
  a.preferredTime.getD 0 ≤ b.preferredTime.getD 0

instance : DecidableRel fixedTimeLe := fun _ _ => Nat.decLe _ _

instance : IsTotal DTask fixedTimeLe :=
  ⟨fun _ _ => Nat.le_total _ _⟩

instance : IsTrans DTask fixedTimeLe :=
  ⟨fun _ _ _ h1 h2 => Nat.le_trans h1 h2⟩

/-- Ordering used for `flexible_tasks.sort(key=lambda x: x["priority"], reverse=True)`:
descending priority, stable on ties. -/
def priorityDescLe (a b : DTask) : Prop :=
  b.priority ≤ a.priority

instance : DecidableRel priorityDescLe := fun _ _ => Int.decLe _ _

instance : IsTotal DTask priorityDescLe :=
  ⟨fun _ _ => Int.le_total _ _⟩

instance : IsTrans DTask priorityDescLe :=
  ⟨fun _ _ _ h1 h2 => Int.le_trans h2 h1⟩

/-- Ordering used for the final `schedule.sort(key=lambda x: x["time"])`. -/
def entryTimeLe (a b : Entry) : Prop :=
  a.time ≤ b.time

instance : DecidableRel entryTimeLe := fun _ _ => Nat.decLe _ _

instance : IsTotal Entry entryTimeLe :=
  ⟨fun _ _ => Nat.le_total _ _⟩

instance : IsTrans Entry entryTimeLe :=
  ⟨fun _ _ _ h1 h2 => Nat.le_trans h1 h2⟩

/-! ### The daily conflict resolver, src/daily_scheduler.py lines 472-554 -/

/-- Tail of the loop `while current_time < work_end and len(available_slots) < 8`
in `find_available_time_slots`: each pass appends one slot, so the length
bound becomes the fuel `8 - len(available_slots)`. Times beyond the work
end (18:00 = 1080 minutes) stop the loop. -/
def afterSlots : Nat → Nat → List Nat
  | 0, _ => []
  | fuel + 1, cur => if cur < 1080 then cur :: afterSlots fuel (cur + 60) else []

/-- Model of `find_available_time_slots(fixed_tasks, target_date)` in
`src/daily_scheduler.py` lines 519-554. The work day is 08:00-18:00
(480-1080 minutes). With no fixed tasks it emits eight hourly slots from
08:00. Otherwise it walks the fixed tasks in time order, emits the cursor
once per gap in front of a fixed task, advances the cursor past the fixed
task plus a 15 minute buffer (`.time()` wraps at midnight, hence the
mod 1440), and finally emits hourly slots until 18:00 or eight slots. -/
def findAvailableTimeSlots (fixedTasks : List DTask)  : List Nat :=
  if fixedTasks.isEmpty then
    (List.range 8).map fun i => 480 + 60 * i
  else
    let sortedFixed := List.insertionSort fixedTimeLe fixedTasks
    let scan := sortedFixed.foldl
      (fun (acc : Nat × List Nat) t =>
        let ft := t.preferredTime.getD 0
        let slots := if acc.1 < ft then acc.2 ++ [acc.1] else acc.2
        let taskEnd := (ft + t.duration + 15) % 1440
        (max acc.1 taskEnd, slots))
      (480, [])
    scan.2 ++ afterSlots (8 - scan.2.length) scan.1

/-- Schedule entry built for a fixed-time task in `generate_accurate_schedule`
lines 487-495: the time is exactly the declared preferred time. -/
def fixedEntry (t : DTask) : Entry :=
  { time := t.preferredTime.getD 0
    task := t.task
    duration := t.duration
    category := t.category
    ttype := t.ttype
    priorityLabel := "FIXED TIME" }

/-- Schedule entry built for a flexible task placed at a slot,
`generate_accurate_schedule` lines 502-512. -/
def flexEntry (t : DTask) (slot : Nat) : Entry :=
  { time := slot
    task := t.task
    duration := t.duration
    category := t.category
    ttype := t.ttype
    priorityLabel := "Priority " ++ toString t.priority }

/-- Model of `generate_accurate_schedule(tasks, target_date)` in
`src/daily_scheduler.py` lines 472-517: split into fixed-time and flexible
tasks, sort the fixed ones by time and the flexible ones by descending
priority, emit every fixed task at its declared time, hand slot i of
`find_available_time_slots` to flexible task i (tasks beyond the slot list
are dropped, which the zip reproduces), and sort the result by time. -/
def generateAccurateSchedule (tasks : List DTask) : List Entry :=
  let fixedTimeTasks := tasks.filter fun t => t.preferredTime.isSome
  let flexibleTasks := tasks.filter fun t => !t.preferredTime.isSome
  let fixedSorted := List.insertionSort fixedTimeLe fixedTimeTasks
  let flexSorted := List.insertionSort priorityDescLe flexibleTasks
  let fixedEntries := fixedSorted.map fixedEntry
  let availableSlots := findAvailableTimeSlots fixedSorted
  let flexEntries := (flexSorted.zip availableSlots).map fun p => flexEntry p.1 p.2
  List.insertionSort entryTimeLe (fixedEntries ++ flexEntries)

/-! ### The weekly conflict resolver, src/weekly_scheduler.py lines 488-525 -/

/-- Model of the per-day entry dictionaries of
`generate_accurate_weekly_schedule` in `src/weekly_scheduler.py`
(keys: time, task, duration, category, type, priority, fixed_time). -/
structure WeekEntry where
  time : Nat
  task : String
  duration : Nat
  category : String
  ttype : String
  priority : Int
  fixedTime : Bool
deriving DecidableEq

/-- Ordering for the final `resolved_schedule.sort(key=lambda x: x["time"])`. -/
def weekEntryTimeLe (a b : WeekEntry) : Prop :=
  a.time ≤ b.time

instance : DecidableRel weekEntryTimeLe := fun _ _ => Nat.decLe _ _

instance : IsTotal WeekEntry weekEntryTimeLe :=
  ⟨fun _ _ => Nat.le_total _ _⟩

instance : IsTrans WeekEntry weekEntryTimeLe :=
  ⟨fun _ _ _ h1 h2 => Nat.le_trans h1 h2⟩

/-- Model of `find_available_weekly_slots(fixed_tasks, date)` in
`src/weekly_scheduler.py` lines 510-525: the candidate hours 08:00-11:00
and 13:00-17:00, minus the times already taken by fixed tasks. -/
def findAvailableWeeklySlots (fixedTasks : List WeekEntry) : List Nat :=
  let workHours : List Nat := [480, 540, 600, 660, 780, 840, 900, 960, 1020]
  let takenTimes := fixedTasks.map fun t => t.time
  workHours.filter fun slot => !takenTimes.contains slot

/-- Model of `resolve_daily_conflicts(daily_schedule, date)` in
`src/weekly_scheduler.py` lines 488-508: fixed-time entries are kept
verbatim, flexible entries are reassigned the free hourly slots in order
(entries beyond the slot list are dropped), and the result is sorted by
time. -/
def resolveDailyConflicts (dailySchedule : List WeekEntry) : List WeekEntry :=
  let fixedTasks := dailySchedule.filter fun t => t.fixedTime
  let flexibleTasks := dailySchedule.filter fun t => !t.fixedTime
  let availableSlots := findAvailableWeeklySlots fixedTasks
  let placedFlexible := (flexibleTasks.zip availableSlots).map
    fun p => { p.1 with time := p.2 }
  List.insertionSort weekEntryTimeLe (fixedTasks ++ placedFlexible)

/-! ### Recurring-task date filters -/

/-- Substring test on character lists, used to model the Python operator
`needle in hay` on strings. -/
def charsContain (needle : List Char) : List Char → Bool
  | [] => needle.isEmpty
  | c :: rest => needle.isPrefixOf (c :: rest) || charsContain needle rest

/-- Model of the Python expression `needle in hay` for strings. -/
def strContains (hay needle : String) : Bool :=
  charsContain needle.data hay.data

/-- Model of the per-task inclusion decision of
`get_recurring_tasks_for_date(target_date)` in `src/daily_scheduler.py`
lines 338-357: given the frequency and frequency-details fields of a
recurring task and the weekday index (0 = Monday) and weekday name of the
target date, decide whether an instance occurs on that date. A NULL
`frequency_details` column is modelled by the empty string, which the
source treats the same way (both are falsy). -/
def includeRecurringOnDate (frequency freqDetails : String) (weekday : Nat)
    (dayName : String) : Bool :=
  if frequency = "daily" then true
  else if frequency = "weekdays" then decide (weekday < 5)
  else if frequency = "weekends" then decide (5 ≤ weekday)
  else if frequency = "specific_days" then
    !(freqDetails = "") && strContains freqDetails dayName
  else if frequency = "custom" then
    !(freqDetails = "") && strContains freqDetails.toLower dayName.toLower
  else if frequency = "weekly" then true
  else false

/-- Model of the per-task inclusion decision of
`get_recurring_tasks_for_week(start_date)` in `src/weekly_scheduler.py`
lines 163-173, which handles only the daily, weekdays, weekends and
weekly frequencies. -/
def includeWeeklyRecurring (frequency : String) (weekday : Nat) : Bool :=
  if frequency = "daily" then true
  else if frequency = "weekdays" then decide (weekday < 5)
  else if frequency = "weekends" then decide (5 ≤ weekday)
  else if frequency = "weekly" then true
  else false

/-- Day offsets (0..6 from the start date) on which
`get_recurring_tasks_for_week` emits an instance of a task with the given
frequency, for a week starting on the given weekday index. -/
def weekOccurrences (frequency : String) (startWeekday : Nat) : List Nat :=
  (List.range 7).filter fun off =>
    includeWeeklyRecurring frequency ((startWeekday + off) % 7)

/-! ### The recurrence-instance generator, src/master_jarvis.py lines 1227-1289 -/

/-- Date advance of `_generate_recurring_instances` per pattern: daily
adds one day, weekly seven, biweekly fourteen; the monthly advance
(`current_date.replace(month=month + 1)` with calendar arithmetic) is
abstracted as the parameter `monthStep`, since every claim below holds
for an arbitrary advance; an unrecognized pattern leaves the date
unchanged, exactly as the source falls through all branches. -/
def nextOccurrence (monthStep : Nat → Nat) (pattern : String) (d : Nat) : Nat :=
  if pattern = "daily" then d + 1
  else if pattern = "weekly" then d + 7
  else if pattern = "biweekly" then d + 14
  else if pattern = "monthly" then monthStep d
  else d

/-- Model of the loop bound `max_occurrences or 50`: Python `or` replaces
both `None` and `0` by 50. -/
def occurrenceCap : Option Int → Int
  | none => 50
  | some n => if n = 0 then 50 else n

/-- Model of the generation loop of `_generate_recurring_instances`,
lines 1236-1287: while the count is below the cap, stop when the current
date passes the end date, skip weekend days for the daily pattern without
counting them, otherwise emit the current date and advance it by the
pattern step. Termination: every pass either raises the count toward the
cap or consumes one of at most two consecutive weekend days. -/
def genLoop (monthStep : Nat → Nat) (pattern : String) (endDate : Option Nat)
    (cap : Int) (current : Nat) (count : Nat) : List Nat :=
  if (count : Int) < cap then
    if (match endDate with | some e => decide (e < current) | none => false) then []
    else if pattern = "daily" ∧ 5 ≤ current % 7 then
      genLoop monthStep pattern endDate cap (current + 1) count
    else
      current ::
        genLoop monthStep pattern endDate cap
          (nextOccurrence monthStep pattern current) (count + 1)
  else []
termination_by
  (cap - count).toNat * 3 + (if 5 ≤ current % 7 then 7 - current % 7 else 0)
decreasing_by
  · split_ifs <;> omega
  · split_ifs <;> omega

/-- Model of `_generate_recurring_instances(...)` in `src/master_jarvis.py`
lines 1227-1289, restricted to its scheduling result: the list of dates of
the generated instances (the database writes are external). The start date
is `datetime.now().date()`, here a parameter. -/
def genInstances (monthStep : Nat → Nat) (pattern : String) (startDate : Nat)
    (endDate : Option Nat) (maxOccurrences : Option Int) : List Nat :=
  genLoop monthStep pattern endDate (occurrenceCap maxOccurrences) startDate 0

/-! ### The weekly distributor, src/master_jarvis.py lines 2471-2580 -/

/-- Model of the safe task dictionaries built for weekly planning in
`src/master_jarvis.py` lines 2382-2394 (the fields the distributor reads:
title, priority_total, est_time in hours, energy_level, days_until_due).
Estimated hours, Python floats in the source, are modelled as rationals. -/
structure WTask where
  title : String
  priorityTotal : Int
  estTime : ℚ
  energyLevel : String
  daysUntilDue : Option Int
  category : String
deriving DecidableEq

/-- Model of the `deadline_priority` score computed inside `sort_key`
(`_generate_weekly_schedule`, lines 2475-2484): 1000 when overdue, 100
minus the days until due when due within seven days, 10 when due later,
and 0 (the initial value, never reassigned) when there is no due date. -/
def deadlinePriority : Option Int → Int
  | none => 0
  | some d => if d ≤ 0 then 1000 else if d ≤ 7 then 100 - d else 10

/-- First component of the sort key: negated deadline priority. -/
def sortKeyFst (t : WTask) : Int :=
  -(deadlinePriority t.daysUntilDue)

/-- Second component of the sort key: negated priority total. -/
def sortKeySnd (t : WTask) : Int :=
  -t.priorityTotal

/-- Third component of the sort key: the Python boolean
`task["energy_level"] != "high"` (False sorts before True). -/
def sortKeyThd (t : WTask) : Bool :=
  !(t.energyLevel = "high")

/-- Lexicographic order of the Python key tuple
`(-deadline_priority, -task["priority_total"], task["energy_level"] != "high")`
returned by `sort_key` (lines 2475-2487). -/
def wtaskLe (a b : WTask) : Prop :=
  sortKeyFst a < sortKeyFst b ∨
    (sortKeyFst a = sortKeyFst b ∧
      (sortKeySnd a < sortKeySnd b ∨
        (sortKeySnd a = sortKeySnd b ∧ sortKeyThd a ≤ sortKeyThd b)))

instance : DecidableRel wtaskLe :=
  fun _ _ => inferInstanceAs (Decidable (_ ∨ _))

instance : IsTotal WTask wtaskLe := by
  constructor
  intro a b
  unfold wtaskLe
  rcases Int.lt_trichotomy (sortKeyFst a) (sortKeyFst b) with h | h | h
  · exact Or.inl (Or.inl h)
  · rcases Int.lt_trichotomy (sortKeySnd a) (sortKeySnd b) with h2 | h2 | h2
    · exact Or.inl (Or.inr ⟨h, Or.inl h2⟩)
    · rcases le_total (sortKeyThd a) (sortKeyThd b) with h3 | h3
      · exact Or.inl (Or.inr ⟨h, Or.inr ⟨h2, h3⟩⟩)
      · exact Or.inr (Or.inr ⟨h.symm, Or.inr ⟨h2.symm, h3⟩⟩)
    · exact Or.inr (Or.inr ⟨h.symm, Or.inl h2⟩)
  · exact Or.inr (Or.inl h)

instance : IsTrans WTask wtaskLe := by
  constructor
  intro a b c hab hbc
  unfold wtaskLe at hab hbc ⊢
  rcases hab with h1 | ⟨h1, h1r⟩
  · rcases hbc with h2 | ⟨h2, _⟩
    · exact Or.inl (h1.trans h2)
    · exact Or.inl (h2 ▸ h1)
  · rcases hbc with h2 | ⟨h2, h2r⟩
    · exact Or.inl (h1 ▸ h2)
    · refine Or.inr ⟨h1.trans h2, ?_⟩
      rcases h1r with h3 | ⟨h3, h3r⟩
      · rcases h2r with h4 | ⟨h4, _⟩
        · exact Or.inl (h3.trans h4)
        · exact Or.inl (h4 ▸ h3)
      · rcases h2r with h4 | ⟨h4, h4r⟩
        · exact Or.inl (h3 ▸ h4)
        · exact Or.inr ⟨h3.trans h4, h3r.trans h4r⟩

/-- Model of one entry of the `weekly_schedule[day]` dictionaries built in
`_generate_weekly_schedule` lines 2495-2531: the list of tasks assigned to
the day, the running total of estimated hours, and the deadline alert
strings. The display-only fields (date string, focus theme) are omitted. -/
structure DayPlan where
  tasks : List WTask
  totalHours : ℚ
  alerts : List String
deriving DecidableEq

/-- Day plan with no tasks, matching the initialization in lines 2495-2503. -/
def emptyDay : DayPlan :=
  { tasks := [], totalHours := 0, alerts := [] }

/-- State threaded through the distribution loop: the five weekday plans
(index 0 = Monday .. 4 = Friday), the pool-level `deadline_warnings`
list, and, as specification-only instrumentation absent from the source,
a log recording each (task, day index) placement in order. -/
structure WeekState where
  days : List DayPlan
  warnings : List String
  log : List (WTask × Nat)
deriving DecidableEq

/-- Initial state: five empty weekday plans, matching
`weekdays = [Monday..Friday]` in line 2493. -/
def initWeekState : WeekState :=
  { days := [emptyDay, emptyDay, emptyDay, emptyDay, emptyDay]
    warnings := [], log := [] }

/-- Running total of the day at the given index. -/
def dayTotal (days : List DayPlan) (i : Nat) : ℚ :=
  (days.getD i emptyDay).totalHours

/-- Model of `range(max(0, target_day_index - 1), min(len(weekdays), target_day_index + 2))`
together with the guard `if day_offset < len(weekdays)` in
`_find_best_day_for_task` lines 2560-2564, where
`target_day_index = min(days_until_due, 4)`. -/
def deadlineCandidates (d : Int) : List Nat :=
  let target : Int := min d 4
  let lo : Int := max 0 (target - 1)
  let hi : Int := min 5 (target + 2)
  ((List.range (hi - lo).toNat).map fun k => lo.toNat + k).filter
    fun off => decide (off < 5)

/-- Model of `min(weekdays, key=lambda d: weekly_schedule[d]["total_hours"])`
in line 2579: the first day index of minimal running total. -/
def leastFullDay (days : List DayPlan) : Nat :=
  [1, 2, 3, 4].foldl
    (fun best i => if dayTotal days i < dayTotal days best then i else best) 0

/-- Shared tail of `_find_best_day_for_task` (lines 2572-2580): scan all
five weekdays for the first with remaining capacity, else fall back to the
least full day. -/
def generalScanOrLeastFull (t : WTask) (days : List DayPlan) (cap : ℚ) : Option Nat :=
  match [0, 1, 2, 3, 4].find?
      (fun i => decide (dayTotal days i + t.estTime ≤ cap)) with
  | some i => some i
  | none => some (leastFullDay days)

/-- Model of `_find_best_day_for_task(task, weekly_schedule, weekdays,
daily_capacity, start_date)` in `src/master_jarvis.py` lines 2555-2580.
The source returns a day name string and the caller tests its truthiness,
so the model returns an optional day index; every path of the source ends
in a return of a day name, which reappears below as the theorem that the
result is always `some`. -/
def findBestDayForTask (t : WTask) (days : List DayPlan) (cap : ℚ) : Option Nat :=
  match t.daysUntilDue with
  | some d =>
    match (deadlineCandidates d).find?
        (fun i => decide (dayTotal days i + t.estTime ≤ cap)) with
    | some i => some i
    | none => generalScanOrLeastFull t days cap
  | none => generalScanOrLeastFull t days cap

/-- Model of the loop body of `_generate_weekly_schedule` lines 2510-2534:
ask `_find_best_day_for_task` for a day; place the task there, add its
estimated time to the running total, and append a deadline alert when the
task is due within three days; otherwise (a branch the helper never takes)
append a pool-level warning. -/
def placeTask (cap : ℚ) (st : WeekState) (t : WTask) : WeekState :=
  match findBestDayForTask t st.days cap with
  | some i =>
    let dp := st.days.getD i emptyDay
    let dp2 : DayPlan :=
      { tasks := dp.tasks ++ [t]
        totalHours := dp.totalHours + t.estTime
        alerts :=
          match t.daysUntilDue with
          | some d => if d ≤ 3 then dp.alerts ++ ["due soon: " ++ t.title]
                      else dp.alerts
          | none => dp.alerts }
    { st with days := st.days.set i dp2, log := st.log ++ [(t, i)] }
  | none =>
    { st with warnings := st.warnings ++ ["Could not schedule " ++ t.title] }

/-- Model of `daily_capacity = (end_hour - start_hour) * 0.8` in line 2507. -/
def dailyCapacity (startHour endHour : Int) : ℚ :=
  ((endHour - startHour : Int) : ℚ) * (4 / 5)

/-- Model of `_generate_weekly_schedule(tasks, start_date, start_hour,
end_hour)` in `src/master_jarvis.py` lines 2471-2553: sort the pool by the
deadline-aware key and distribute the tasks in that order over the five
weekday plans. The focus-theme pass (lines 2537-2547) only decorates
display fields and is omitted. -/
def generateWeeklySchedule (pool : List WTask) (startHour endHour : Int) : WeekState :=
  (List.insertionSort wtaskLe pool).foldl
    (placeTask (dailyCapacity startHour endHour)) initWeekState

/-- Weekday names used as the keys of the produced schedule, line 2493 of
`src/master_jarvis.py`: five names, Monday through Friday. -/
def weekdayNames : List String :=
  ["Monday", "Tuesday", "Wednesday", "Thursday", "Friday"]

/-- The produced schedule as the source exposes it: day names paired with
their day plans. -/
def namedDays (st : WeekState) : List (String × DayPlan) :=
  weekdayNames.zip st.days

/-- Number of tasks placed across all days of a distributor state. -/
def totalPlaced (st : WeekState) : Nat :=
  (st.days.map fun d => d.tasks.length).sum

/-- First candidate day of the deadline window of `_find_best_day_for_task`,
`max(0, min(days_until_due, 4) - 1)`: the day a task due within the week
lands on when every day has spare capacity. -/
def deadlineTargetDay (d : Int) : Nat :=
  (min d 4 - 1).toNat

/-! ### Concrete inputs used by the closed theorems below -/

/-- Flexible 90 minute task of priority 18. -/
def taskA : DTask :=
  { task := "Write report", duration := 90, preferredTime := none
    category := "work", priority := 18, ttype := "additional" }

/-- Flexible 60 minute task of priority 10. -/
def taskB : DTask :=
  { task := "Answer email", duration := 60, preferredTime := none
    category := "work", priority := 10, ttype := "additional" }

/-- Fixed-time task pinned at 09:00 (540 minutes). -/
def taskC : DTask :=
  { task := "Standup", duration := 30, preferredTime := some 540
    category := "meetings", priority := 5, ttype := "recurring" }

/-- Weekly schedule entry pinned at 14:00 (840 minutes). -/
def weekEntryC : WeekEntry :=
  { time := 840, task := "Client call", duration := 30, category := "work"
    ttype := "project", priority := 5, fixedTime := true }

/-- Pool task whose estimated time (100 hours) exceeds any daily capacity. -/
def bigTask : WTask :=
  { title := "Annual audit", priorityTotal := 12, estTime := 100
    energyLevel := "medium", daysUntilDue := none, category := "work" }

/-- Small task due in two days. -/
def reportTask : WTask :=
  { title := "Report", priorityTotal := 10, estTime := 1
    energyLevel := "high", daysUntilDue := some 2, category := "work" }

/-- Small task due in five days. -/
def slidesTask : WTask :=
  { title := "Slides", priorityTotal := 10, estTime := 1
    energyLevel := "medium", daysUntilDue := some 5, category := "work" }

/-! ### Theorems -/

/-- C1. The no-overlap claim fails on the code: `find_available_time_slots`
emits hourly slots without consulting the flexible task durations, so
`generate_accurate_schedule` on two flexible tasks of 90 and 60 minutes
places them at 08:00 (480) and 09:00 (540), whose half-open intervals
[480, 570) and [540, 600) intersect. -/
theorem overlap_at_hourly_slots :
    ((generateAccurateSchedule [taskA, taskB]).map fun e => (e.time, e.duration))
      = [(480, 90), (540, 60)] ∧ 540 < 480 + 90 := by
  constructor
  · rfl
  · decide

/-- C2. Fixed-time preservation: every task with a declared preferred time
appears in the output of `generate_accurate_schedule` as an entry whose
time is exactly that declared time, and every fixed-time entry given to
`resolve_daily_conflicts` reappears unchanged in its output. The code
never moves a fixed task, so the collision exception of the claim is
never exercised. -/
theorem fixed_time_preserved :
    (∀ (tasks : List DTask) (t : DTask) (p : Nat), t ∈ tasks →
      t.preferredTime = some p →
      fixedEntry t ∈ generateAccurateSchedule tasks ∧ (fixedEntry t).time = p) ∧
    (∀ (sched : List WeekEntry) (t : WeekEntry), t ∈ sched →
      t.fixedTime = true → t ∈ resolveDailyConflicts sched) := by
  constructor
  · intro tasks t p hmem hp
    refine ⟨?_, by simp [fixedEntry, hp]⟩
    unfold generateAccurateSchedule
    rw [List.mem_insertionSort]
    apply List.mem_append_left
    apply List.mem_map_of_mem
    rw [List.mem_insertionSort]
    rw [List.mem_filter]
    exact ⟨hmem, by simp [hp]⟩
  · intro sched t hmem hfix
    unfold resolveDailyConflicts
    rw [List.mem_insertionSort]
    apply List.mem_append_left
    rw [List.mem_filter]
    exact ⟨hmem, by simp [hfix]⟩

/-- C2 witness: the fixed tasks `taskC` (09:00) and `weekEntryC` (14:00)
are preserved at their declared times. -/
theorem fixed_time_preserved_witness :
    (fixedEntry taskC ∈ generateAccurateSchedule [taskA, taskC] ∧
      (fixedEntry taskC).time = 540) ∧
    weekEntryC ∈ resolveDailyConflicts [weekEntryC] :=
  ⟨fixed_time_preserved.1 [taskA, taskC] taskC 540 (by decide) rfl,
   fixed_time_preserved.2 [weekEntryC] weekEntryC (by decide) rfl⟩

/-- C7. The weekdays recurrence pattern fires exactly on weekday indices
below 5, in both the daily and the weekly expander, and over a week
starting on a Monday (weekday 0) it yields exactly the five offsets
Monday through Friday, with nothing on Saturday (offset 5) or Sunday
(offset 6). -/
theorem weekdays_pattern_weekday_lt_five :
    (∀ (det dayName : String) (w : Nat),
      includeRecurringOnDate "weekdays" det w dayName = true ↔ w < 5) ∧
    (∀ w : Nat, includeWeeklyRecurring "weekdays" w = true ↔ w < 5) ∧
    weekOccurrences "weekdays" 0 = [0, 1, 2, 3, 4] := by
  refine ⟨?_, ?_, by decide⟩
  · intro det dayName w
    simp [includeRecurringOnDate]
  · intro w
    simp [includeWeeklyRecurring]

/-- C7 witness: Wednesday (weekday 2) is included by the weekdays pattern
in both expanders. -/
theorem weekdays_pattern_witness :
    includeRecurringOnDate "weekdays" "" 2 "Wednesday" = true ∧
    includeWeeklyRecurring "weekdays" 2 = true :=
  ⟨(weekdays_pattern_weekday_lt_five.1 "" "Wednesday" 2).mpr (by decide),
   (weekdays_pattern_weekday_lt_five.2.1 2).mpr (by decide)⟩

/-- C3 counterexample: a task without a deadline gets deadline score 0,
which is not a positive constant, refuting the claim that the score is
positive in the no-deadline case. -/
theorem deadline_score_none_is_zero :
    deadlinePriority none = 0 ∧ ¬(0 < deadlinePriority none) := by
  decide

/-- C3 amended: the deadline score is 1000 for overdue tasks, 100 minus
the days until due for tasks due within the week, 10 for tasks due later,
and 0 (not positive) for tasks without a deadline; the pool is processed
in the order of the sort key, i.e. the processed list is a permutation of
the pool sorted by the lexicographic key order `wtaskLe`. -/
theorem deadline_score_bands :
    (∀ d : Int, d ≤ 0 → deadlinePriority (some d) = 1000) ∧
    (∀ d : Int, 1 ≤ d → d ≤ 7 → deadlinePriority (some d) = 100 - d) ∧
    (∀ d : Int, 7 < d → deadlinePriority (some d) = 10) ∧
    deadlinePriority none = 0 ∧
    (∀ pool : List WTask,
      List.Sorted wtaskLe (List.insertionSort wtaskLe pool) ∧
      List.Perm (List.insertionSort wtaskLe pool) pool) := by
  refine ⟨?_, ?_, ?_, rfl, ?_⟩
  · intro d hd
    simp [deadlinePriority, hd]
  · intro d h1 h7
    rw [deadlinePriority, if_neg (by omega), if_pos h7]
  · intro d h
    rw [deadlinePriority, if_neg (by omega), if_neg (by omega)]
  · intro pool
    exact ⟨List.sorted_insertionSort wtaskLe pool, List.perm_insertionSort wtaskLe pool⟩

/-- C3 witness: the three bands evaluated at concrete distances, and the
sortedness of a concrete two-task pool. -/
theorem deadline_score_bands_witness :
    deadlinePriority (some (-1)) = 1000 ∧
    deadlinePriority (some 3) = 100 - 3 ∧
    deadlinePriority (some 9) = 10 ∧
    (List.Sorted wtaskLe (List.insertionSort wtaskLe [slidesTask, reportTask]) ∧
      List.Perm (List.insertionSort wtaskLe [slidesTask, reportTask]) [slidesTask, reportTask]) :=
  ⟨deadline_score_bands.1 (-1) (by decide),
   deadline_score_bands.2.1 3 (by decide) (by decide),
   deadline_score_bands.2.2.1 9 (by decide),
   deadline_score_bands.2.2.2.2 [slidesTask, reportTask]⟩

/-- C9 counterexample: called with the end date (day 3) strictly before
the start date (day 5), the generator returns the empty instance list as
an ordinary result; no typed error exists anywhere in the source. -/
theorem inverted_range_returns_normally :
    genInstances (fun d => d + 31) "weekly" 5 (some 3) (some 4) = [] := by
  rw [genInstances, genLoop.eq_def]
  norm_num [occurrenceCap]

/-- C9 amended: for every pattern, month step and occurrence bound, an end
date strictly before the start date makes the generator return the empty
list (it emits nothing and raises nothing). -/
theorem empty_range_yields_no_instances (monthStep : Nat → Nat) (pattern : String)
    (startDate e : Nat) (maxOccurrences : Option Int) (h : e < startDate) :
    genInstances monthStep pattern startDate (some e) maxOccurrences = [] := by
  rw [genInstances, genLoop.eq_def]
  split
  · simp [h]
  · rfl

/-- C9 witness: the empty-range result at a concrete inverted range. -/
theorem empty_range_witness :
    genInstances (fun d => d + 31) "daily" 10 (some 3) none = [] :=
  empty_range_yields_no_instances (fun d => d + 31) "daily" 10 3 none (by decide)

/-- Reading a freshly set index of a day-plan list. -/
theorem dayTotal_set_self (days : List DayPlan) (i : Nat) (x : DayPlan)
    (h : i < days.length) : dayTotal (days.set i x) i = x.totalHours := by
  unfold dayTotal
  simp [List.getD_eq_getElem?_getD, List.getElem?_set_self, h]

/-- Reading an untouched index of a day-plan list. -/
theorem dayTotal_set_ne (days : List DayPlan) (i j : Nat) (x : DayPlan)
    (h : i ≠ j) : dayTotal (days.set i x) j = dayTotal days j := by
  unfold dayTotal
  simp [List.getD_eq_getElem?_getD, List.getElem?_set_ne h]

/-- The fold computing the least full day only ever returns its seed or a
member of the scanned list. -/
theorem foldl_pick_mem (days : List DayPlan) :
    ∀ (l : List Nat) (b : Nat),
      l.foldl (fun best i => if dayTotal days i < dayTotal days best then i else best) b
        ∈ b :: l := by
  intro l
  induction l with
  | nil => intro b; simp
  | cons x xs ih =>
    intro b
    have h := ih (if dayTotal days x < dayTotal days b then x else b)
    rw [List.foldl_cons]
    rcases List.mem_cons.mp h with h1 | h1
    · rw [h1]
      split
      · exact List.mem_cons_of_mem _ (List.mem_cons_self _ _)
      · exact List.mem_cons_self _ _
    · exact List.mem_cons_of_mem _ (List.mem_cons_of_mem _ h1)

/-- The least full day index is one of the five weekdays. -/
theorem leastFullDay_lt_five (days : List DayPlan) : leastFullDay days < 5 := by
  have h := foldl_pick_mem days [1, 2, 3, 4] 0
  unfold leastFullDay
  simp only [List.mem_cons, List.not_mem_nil, or_false] at h
  rcases h with h | h | h | h | h <;> omega

/-- The shared fallback of the day search always yields a day. -/
theorem generalScanOrLeastFull_isSome (t : WTask) (days : List DayPlan) (cap : ℚ) :
    (generalScanOrLeastFull t days cap).isSome := by
  unfold generalScanOrLeastFull
  cases ([0, 1, 2, 3, 4].find? fun i => decide (dayTotal days i + t.estTime ≤ cap)) <;> rfl

/-- Model counterpart of the fact that every path of
`_find_best_day_for_task` returns a day name: the result is never `none`. -/
theorem findBestDay_isSome (t : WTask) (days : List DayPlan) (cap : ℚ) :
    (findBestDayForTask t days cap).isSome := by
  unfold findBestDayForTask
  split
  · split
    · rfl
    · exact generalScanOrLeastFull_isSome t days cap
  · exact generalScanOrLeastFull_isSome t days cap

/-- Every day index the search returns is one of the five weekdays. -/
theorem findBestDay_lt_five (t : WTask) (days : List DayPlan) (cap : ℚ) (i : Nat)
    (h : findBestDayForTask t days cap = some i) : i < 5 := by
  have hgen : ∀ j : Nat, generalScanOrLeastFull t days cap = some j → j < 5 := by
    intro j hj
    unfold generalScanOrLeastFull at hj
    split at hj
    · rename_i hf
      cases hj
      have := List.mem_of_find?_eq_some hf
      simp at this
      omega
    · cases hj
      exact leastFullDay_lt_five days
  unfold findBestDayForTask at h
  split at h
  · split at h
    · rename_i hf
      cases h
      have hmem := List.mem_of_find?_eq_some hf
      unfold deadlineCandidates at hmem
      have h5 := (List.mem_filter.mp hmem).2
      simpa using h5
    · exact hgen i h
  · exact hgen i h

/-- Placing a task never touches the warning list, because the day search
always succeeds. -/
theorem placeTask_warnings (cap : ℚ) (st : WeekState) (t : WTask) :
    (placeTask cap st t).warnings = st.warnings := by
  unfold placeTask
  cases h : findBestDayForTask t st.days cap with
  | some i => rfl
  | none =>
    have := findBestDay_isSome t st.days cap
    rw [h] at this
    cases this

/-- Placing a task preserves the number of day plans. -/
theorem placeTask_days_length (cap : ℚ) (st : WeekState) (t : WTask) :
    (placeTask cap st t).days.length = st.days.length := by
  unfold placeTask
  cases h : findBestDayForTask t st.days cap with
  | some i => simp
  | none => rfl

/-- Setting one day plan to a plan with one more task raises the total
task count by one. -/
theorem sum_map_set_succ :
    ∀ (l : List DayPlan) (i : Nat) (x : DayPlan), i < l.length →
      x.tasks.length = (l.getD i emptyDay).tasks.length + 1 →
      ((l.set i x).map fun d => d.tasks.length).sum
        = ((l.map fun d => d.tasks.length).sum) + 1 := by
  intro l
  induction l with
  | nil => intro i x h; simp at h
  | cons a tl ih =>
    intro i x hi hx
    cases i with
    | zero =>
      simp only [List.set_cons_zero, List.map_cons, List.sum_cons]
      have hx2 : x.tasks.length = a.tasks.length + 1 := by simpa using hx
      omega
    | succ n =>
      simp only [List.set_cons_succ, List.map_cons, List.sum_cons]
      have hlen : n < tl.length := by simpa using hi
      have hx2 : x.tasks.length = (tl.getD n emptyDay).tasks.length + 1 := by
        simpa using hx
      rw [ih n x hlen hx2]
      omega

/-- Placing a task appends it to exactly one day plan. -/
theorem placeTask_count (cap : ℚ) (st : WeekState) (t : WTask)
    (h5 : st.days.length = 5) :
    totalPlaced (placeTask cap st t) = totalPlaced st + 1 := by
  unfold placeTask
  cases h : findBestDayForTask t st.days cap with
  | some i =>
    have hi : i < 5 := findBestDay_lt_five t st.days cap i h
    unfold totalPlaced
    simp only []
    apply sum_map_set_succ st.days i _ (by omega)
    simp
  | none =>
    have := findBestDay_isSome t st.days cap
    rw [h] at this
    cases this

/-- Placing a task appends exactly one entry to the placement log, for a
day among the five weekdays. -/
theorem placeTask_log (cap : ℚ) (st : WeekState) (t : WTask) :
    ∃ i, i < 5 ∧ findBestDayForTask t st.days cap = some i ∧
      (placeTask cap st t).log = st.log ++ [(t, i)] := by
  cases h : findBestDayForTask t st.days cap with
  | some i =>
    refine ⟨i, findBestDay_lt_five t st.days cap i h, rfl, ?_⟩
    unfold placeTask
    rw [h]
  | none =>
    have := findBestDay_isSome t st.days cap
    rw [h] at this
    cases this

/-- The distribution fold never records a warning. -/
theorem foldl_place_warnings (cap : ℚ) :
    ∀ (l : List WTask) (st : WeekState),
      (l.foldl (placeTask cap) st).warnings = st.warnings := by
  intro l
  induction l with
  | nil => intro st; rfl
  | cons t tl ih =>
    intro st
    rw [List.foldl_cons, ih, placeTask_warnings]

/-- The distribution fold preserves the number of day plans. -/
theorem foldl_place_days_length (cap : ℚ) :
    ∀ (l : List WTask) (st : WeekState),
      (l.foldl (placeTask cap) st).days.length = st.days.length := by
  intro l
  induction l with
  | nil => intro st; rfl
  | cons t tl ih =>
    intro st
    rw [List.foldl_cons, ih, placeTask_days_length]

/-- The distribution fold places every processed task. -/
theorem foldl_place_count (cap : ℚ) :
    ∀ (l : List WTask) (st : WeekState), st.days.length = 5 →
      totalPlaced (l.foldl (placeTask cap) st) = totalPlaced st + l.length := by
  intro l
  induction l with
  | nil => intro st _; simp
  | cons t tl ih =>
    intro st h5
    rw [List.foldl_cons, ih _ (by rw [placeTask_days_length]; exact h5),
      placeTask_count cap st t h5]
    simp
    omega


/-- Every day of the initial state has running total zero. -/
theorem dayTotal_init (i : Nat) : dayTotal initWeekState.days i = 0 := by
  unfold dayTotal initWeekState emptyDay
  rcases i with _ | _ | _ | _ | _ | n <;> rfl

/-- When no weekday fits the task, the day search falls back to the first
least-loaded day. -/
theorem findBestDay_overflow (t : WTask) (days : List DayPlan) (cap : ℚ)
    (hfull : ∀ i, i < 5 → cap < dayTotal days i + t.estTime) :
    findBestDayForTask t days cap = some (leastFullDay days) := by
  have hnofit : ∀ (l : List Nat), (∀ x ∈ l, x < 5) →
      l.find? (fun i => decide (dayTotal days i + t.estTime ≤ cap)) = none := by
    intro l hl
    rw [List.find?_eq_none]
    intro x hx
    simp only [decide_eq_true_eq, not_le]
    exact hfull x (hl x hx)
  have hgen : generalScanOrLeastFull t days cap = some (leastFullDay days) := by
    unfold generalScanOrLeastFull
    rw [hnofit [0, 1, 2, 3, 4] (by intro x hx; simp at hx; omega)]
  unfold findBestDayForTask
  split
  · rename_i d _
    rw [hnofit (deadlineCandidates d) ?_]
    · exact hgen
    · intro x hx
      unfold deadlineCandidates at hx
      have h5 := (List.mem_filter.mp hx).2
      simpa using h5
  · exact hgen

/-- C10. The day search never fails: for every task and intermediate
state it returns some weekday, so the distributor places every pool task
on exactly one day and the could-not-schedule warning branch never fires
(the warnings list of the produced schedule is always empty). -/
theorem distributor_places_every_task (pool : List WTask) (startHour endHour : Int) :
    (∀ (t : WTask) (days : List DayPlan) (cap : ℚ),
      (findBestDayForTask t days cap).isSome) ∧
    (generateWeeklySchedule pool startHour endHour).warnings = [] ∧
    totalPlaced (generateWeeklySchedule pool startHour endHour) = pool.length := by
  refine ⟨findBestDay_isSome, ?_, ?_⟩
  · unfold generateWeeklySchedule
    rw [foldl_place_warnings]
    rfl
  · unfold generateWeeklySchedule
    rw [foldl_place_count _ _ initWeekState (by rfl)]
    simp [totalPlaced, initWeekState, emptyDay]

/-- C10 witness: the one-task pool is fully placed with no warnings. -/
theorem distributor_places_every_task_witness :
    (generateWeeklySchedule [bigTask] 9 17).warnings = [] ∧
    totalPlaced (generateWeeklySchedule [bigTask] 9 17) = 1 :=
  ⟨(distributor_places_every_task [bigTask] 9 17).2.1,
   (distributor_places_every_task [bigTask] 9 17).2.2⟩

/-- C6 counterexample: the weekly distributor builds day schedules for
exactly five day names, Monday through Friday; Saturday and Sunday are
absent, refuting the claim that all seven weekday names get a
DaySchedule and that tasks are eligible for any of seven days. -/
theorem weekly_schedule_not_seven_days :
    ((namedDays (generateWeeklySchedule [] 9 17)).map Prod.fst).length = 5 ∧
    "Saturday" ∉ (namedDays (generateWeeklySchedule [] 9 17)).map Prod.fst ∧
    "Sunday" ∉ (namedDays (generateWeeklySchedule [] 9 17)).map Prod.fst := by
  refine ⟨rfl, ?_, ?_⟩ <;> decide

/-- C6 amended: for every pool, the produced schedule maps exactly the
five weekday names Monday through Friday to a DaySchedule, and every
task is only ever assigned one of those five day indices. -/
theorem weekly_schedule_five_days (pool : List WTask) (startHour endHour : Int) :
    (namedDays (generateWeeklySchedule pool startHour endHour)).map Prod.fst
      = weekdayNames ∧
    weekdayNames.length = 5 ∧
    (∀ p ∈ (generateWeeklySchedule pool startHour endHour).log, p.2 < 5) := by
  have hlen : (generateWeeklySchedule pool startHour endHour).days.length = 5 := by
    unfold generateWeeklySchedule
    rw [foldl_place_days_length]
    rfl
  refine ⟨?_, rfl, ?_⟩
  · unfold namedDays
    apply List.map_fst_zip
    rw [hlen]
    decide
  · unfold generateWeeklySchedule
    have hstep : ∀ (l : List WTask) (st : WeekState),
        (∀ p ∈ st.log, p.2 < 5) →
        ∀ p ∈ ((l.foldl (placeTask (dailyCapacity startHour endHour)) st).log), p.2 < 5 := by
      intro l
      induction l with
      | nil => intro st h; exact h
      | cons t tl ih =>
        intro st h
        rw [List.foldl_cons]
        apply ih
        obtain ⟨i, hi5, _, hlog⟩ :=
          placeTask_log (dailyCapacity startHour endHour) st t
        rw [hlog]
        intro p hp
        rcases List.mem_append.mp hp with hp | hp
        · exact h p hp
        · rcases List.mem_singleton.mp hp with rfl
          exact hi5
    intro p hp
    exact hstep _ initWeekState (by intro q hq; cases hq) p hp

/-- C6 witness: the amended statement at a concrete pool. -/
theorem weekly_schedule_five_days_witness :
    (namedDays (generateWeeklySchedule [reportTask] 9 17)).map Prod.fst
      = weekdayNames :=
  (weekly_schedule_five_days [reportTask] 9 17).1

/-- C4 amended: when no weekday has remaining capacity for a task, the
day search returns the first least-loaded day and the placement records
the task there, but no pool-level warning is recorded (the warning
branch of the distributor is unreachable). -/
theorem overflow_goes_to_least_full_day (t : WTask) (st : WeekState) (cap : ℚ)
    (hfull : ∀ i, i < 5 → cap < dayTotal st.days i + t.estTime) :
    findBestDayForTask t st.days cap = some (leastFullDay st.days) ∧
    (placeTask cap st t).warnings = st.warnings ∧
    (placeTask cap st t).log = st.log ++ [(t, leastFullDay st.days)] := by
  have hfind := findBestDay_overflow t st.days cap hfull
  refine ⟨hfind, placeTask_warnings cap st t, ?_⟩
  unfold placeTask
  rw [hfind]

/-- C4 witness: a 100 hour task against an 8 hour day (capacity 6.4
hours) fits nowhere and goes to the first least-loaded day, Monday. -/
theorem overflow_goes_to_least_full_day_witness :
    findBestDayForTask bigTask initWeekState.days (dailyCapacity 9 17)
      = some (leastFullDay initWeekState.days) ∧
    (placeTask (dailyCapacity 9 17) initWeekState bigTask).warnings
      = initWeekState.warnings ∧
    (placeTask (dailyCapacity 9 17) initWeekState bigTask).log
      = initWeekState.log ++ [(bigTask, leastFullDay initWeekState.days)] :=
  overflow_goes_to_least_full_day bigTask initWeekState (dailyCapacity 9 17)
    (by
      intro i hi
      rw [dayTotal_init]
      norm_num [dailyCapacity, bigTask])

/-- C4 counterexample: on a pool whose single task exceeds the daily
capacity on every day, the distributor performs the overflow placement
(the task lands on Monday) but the produced schedule carries no
pool-level warning, refuting the claim that a warning is recorded. -/
theorem overflow_without_warning :
    (generateWeeklySchedule [bigTask] 9 17).warnings = [] ∧
    ((generateWeeklySchedule [bigTask] 9 17).days.getD 0 emptyDay).tasks
      = [bigTask] := by
  have hfull : ∀ i, i < 5 →
      dailyCapacity 9 17 < dayTotal initWeekState.days i + bigTask.estTime := by
    intro i hi
    rw [dayTotal_init]
    norm_num [dailyCapacity, bigTask]
  have hfind := findBestDay_overflow bigTask initWeekState.days (dailyCapacity 9 17) hfull
  have hleast : leastFullDay initWeekState.days = 0 := by
    unfold leastFullDay
    simp [dayTotal_init]
  rw [hleast] at hfind
  have hrun : generateWeeklySchedule [bigTask] 9 17
      = placeTask (dailyCapacity 9 17) initWeekState bigTask := rfl
  rw [hrun]
  unfold placeTask
  rw [hfind]
  constructor
  · rfl
  · rfl

/-- The generation loop emits at most the remaining count budget. -/
theorem genLoop_length_le (monthStep : Nat → Nat) (pattern : String)
    (endDate : Option Nat) (cap : Int) :
    ∀ (cur cnt : Nat),
      (genLoop monthStep pattern endDate cap cur cnt).length ≤ (cap - cnt).toNat := by
  intro cur cnt
  induction cur, cnt using genLoop.induct monthStep pattern endDate cap with
  | case1 cur cnt h1 h2 =>
    rw [genLoop.eq_def, if_pos h1, if_pos h2]
    simp
  | case2 cur cnt h1 h2 h3 ih =>
    rw [genLoop.eq_def, if_pos h1, if_neg h2, if_pos h3]
    exact ih
  | case3 cur cnt h1 h2 h3 ih =>
    rw [genLoop.eq_def, if_pos h1, if_neg h2, if_neg h3]
    simp only [List.length_cons]
    omega
  | case4 cur cnt h1 =>
    rw [genLoop.eq_def, if_neg h1]
    simp

/-- The generation loop never emits a date past the end date. -/
theorem genLoop_dates_le (monthStep : Nat → Nat) (pattern : String) (e : Nat)
    (cap : Int) :
    ∀ (cur cnt : Nat),
      ∀ d ∈ genLoop monthStep pattern (some e) cap cur cnt, d ≤ e := by
  intro cur cnt
  induction cur, cnt using genLoop.induct monthStep pattern (some e) cap with
  | case1 cur cnt h1 h2 =>
    rw [genLoop.eq_def, if_pos h1, if_pos h2]
    simp
  | case2 cur cnt h1 h2 h3 ih =>
    rw [genLoop.eq_def, if_pos h1, if_neg h2, if_pos h3]
    exact ih
  | case3 cur cnt h1 h2 h3 ih =>
    rw [genLoop.eq_def, if_pos h1, if_neg h2, if_neg h3]
    intro d hd
    rcases List.mem_cons.mp hd with rfl | hd
    · simp at h2
      omega
    · exact ih d hd
  | case4 cur cnt h1 =>
    rw [genLoop.eq_def, if_neg h1]
    simp

/-- With no end date and a pattern other than daily, the loop emits
exactly the remaining count budget. -/
theorem genLoop_none_length (monthStep : Nat → Nat) (pattern : String)
    (hpat : ¬(pattern = "daily")) (cap : Int) :
    ∀ (cur cnt : Nat),
      (genLoop monthStep pattern none cap cur cnt).length = (cap - cnt).toNat := by
  intro cur cnt
  induction cur, cnt using genLoop.induct monthStep pattern none cap with
  | case1 cur cnt h1 h2 =>
    simp at h2
  | case2 cur cnt h1 h2 h3 ih =>
    exact absurd h3.1 hpat
  | case3 cur cnt h1 h2 h3 ih =>
    rw [genLoop.eq_def, if_pos h1, if_neg h2, if_neg h3]
    simp only [List.length_cons, ih]
    omega
  | case4 cur cnt h1 =>
    rw [genLoop.eq_def, if_neg h1]
    simp
    omega

/-- C8 counterexample: with maxOccurrences = 0 supplied, the Python guard
`max_occurrences or 50` treats the zero as absent, so the generator emits
50 instances instead of at most 0, refuting the bound as claimed. -/
theorem zero_max_occurrences_emits_fifty :
    (genInstances (fun d => d) "weekly" 0 none (some 0)).length = 50 ∧
    ¬((genInstances (fun d => d) "weekly" 0 none (some 0)).length ≤ 0) := by
  have h : (genInstances (fun d => d) "weekly" 0 none (some 0)).length = 50 := by
    unfold genInstances
    rw [genLoop_none_length (fun d => d) "weekly" (by decide) (occurrenceCap (some 0)) 0 0]
    rfl
  exact ⟨h, by omega⟩

/-- C8 amended: recurrence expansion is a total function (the model is
defined by well-founded recursion on a count-and-weekend measure), it
emits at most maxOccurrences instances when a nonzero maxOccurrences is
given (a zero maxOccurrences is treated as absent and capped at 50), it
emits no instance dated after endDate when endDate is given, and it emits
at most 50 instances when neither bound is given. -/
theorem recurrence_expansion_bounded (monthStep : Nat → Nat) (pattern : String)
    (startDate : Nat) :
    (∀ (endDate : Option Nat) (n : Int), n ≠ 0 →
      (genInstances monthStep pattern startDate endDate (some n)).length ≤ n.toNat) ∧
    (∀ (e : Nat) (maxOccurrences : Option Int),
      ∀ d ∈ genInstances monthStep pattern startDate (some e) maxOccurrences, d ≤ e) ∧
    (genInstances monthStep pattern startDate none none).length ≤ 50 := by
  refine ⟨?_, ?_, ?_⟩
  · intro endDate n hn
    unfold genInstances
    have h := genLoop_length_le monthStep pattern endDate (occurrenceCap (some n)) startDate 0
    have hcap : occurrenceCap (some n) = n := by
      have heq : occurrenceCap (some n) = if n = 0 then 50 else n := rfl
      rw [heq, if_neg hn]
    rw [hcap] at h ⊢
    omega
  · intro e maxOccurrences d hd
    exact genLoop_dates_le monthStep pattern e (occurrenceCap maxOccurrences)
      startDate 0 d hd
  · have h := genLoop_length_le monthStep pattern none (occurrenceCap none) startDate 0
    have heq : occurrenceCap none = 50 := rfl
    unfold genInstances
    rw [heq] at h ⊢
    omega

/-- C8 witness: at most three weekly instances from a bound of three, and
no instance beyond day 9 for a daily expansion ending there. -/
theorem recurrence_expansion_bounded_witness :
    (genInstances (fun d => d + 31) "weekly" 0 none (some 3)).length ≤ (3 : Int).toNat ∧
    (∀ d ∈ genInstances (fun d => d + 31) "daily" 0 (some 9) none, d ≤ 9) :=
  ⟨(recurrence_expansion_bounded (fun d => d + 31) "weekly" 0).1 none 3 (by decide),
   (recurrence_expansion_bounded (fun d => d + 31) "daily" 0).2.1 9 none⟩

/-- The deadline window of a task due within the week starts exactly at
its target day. -/
theorem deadlineCandidates_head (d : Int) (h1 : 1 ≤ d) (h7 : d ≤ 7) :
    ∃ rest, deadlineCandidates d = deadlineTargetDay d :: rest := by
  interval_cases d <;> exact ⟨_, rfl⟩

/-- Unfolding of the day search for a task that has a due date. -/
theorem findBestDayForTask_some_due (t : WTask) (days : List DayPlan) (cap : ℚ)
    (d : Int) (hdue : t.daysUntilDue = some d) :
    findBestDayForTask t days cap =
      match (deadlineCandidates d).find?
          (fun i => decide (dayTotal days i + t.estTime ≤ cap)) with
      | some i => some i
      | none => generalScanOrLeastFull t days cap := by
  unfold findBestDayForTask
  rw [hdue]

/-- When the target day of a task due within the week still has capacity,
the day search picks exactly that day. -/
theorem findBestDay_deadline (t : WTask) (days : List DayPlan) (cap : ℚ) (d : Int)
    (hdue : t.daysUntilDue = some d) (h1 : 1 ≤ d) (h7 : d ≤ 7)
    (hfit : dayTotal days (deadlineTargetDay d) + t.estTime ≤ cap) :
    findBestDayForTask t days cap = some (deadlineTargetDay d) := by
  obtain ⟨rest, hc⟩ := deadlineCandidates_head d h1 h7
  have hfq : List.find? (fun i => decide (dayTotal days i + t.estTime ≤ cap))
      (deadlineTargetDay d :: rest) = some (deadlineTargetDay d) := by
    rw [List.find?_cons_of_pos]
    simpa using hfit
  rw [findBestDayForTask_some_due t days cap d hdue, hc, hfq]

/-- How one placement changes the per-day running totals. -/
theorem placeTask_dayTotal (cap : ℚ) (st : WeekState) (t : WTask) (i : Nat)
    (hfind : findBestDayForTask t st.days cap = some i) (hi : i < st.days.length) :
    (∀ j, j ≠ i → dayTotal (placeTask cap st t).days j = dayTotal st.days j) ∧
    dayTotal (placeTask cap st t).days i = dayTotal st.days i + t.estTime := by
  unfold placeTask
  rw [hfind]
  constructor
  · intro j hj
    exact dayTotal_set_ne st.days i j _ (Ne.symm hj)
  · exact dayTotal_set_self st.days i _ hi

/-- Log entries only accumulate along the distribution fold. -/
theorem foldl_log_monotone (cap : ℚ) :
    ∀ (l : List WTask) (st : WeekState) (p : WTask × Nat),
      p ∈ st.log → p ∈ (l.foldl (placeTask cap) st).log := by
  intro l
  induction l with
  | nil => intro st p hp; exact hp
  | cons u tl ih =>
    intro st p hp
    rw [List.foldl_cons]
    apply ih
    obtain ⟨i, _, _, hlog⟩ := placeTask_log cap st u
    rw [hlog]
    exact List.mem_append_left _ hp

/-- Every task handed to the distribution fold ends up in the log. -/
theorem foldl_place_log_mem (cap : ℚ) :
    ∀ (l : List WTask) (st : WeekState) (t : WTask), t ∈ l →
      ∃ i, (t, i) ∈ (l.foldl (placeTask cap) st).log := by
  intro l
  induction l with
  | nil => intro st t ht; cases ht
  | cons u tl ih =>
    intro st t ht
    rw [List.foldl_cons]
    rcases List.mem_cons.mp ht with rfl | ht
    · obtain ⟨i, _, _, hlog⟩ := placeTask_log cap st t
      refine ⟨i, foldl_log_monotone cap tl (placeTask cap st t) (t, i) ?_⟩
      rw [hlog]
      exact List.mem_append_right _ (List.mem_singleton.mpr rfl)
    · exact ih (placeTask cap st u) t ht

/-- Core invariant of the distribution fold under ample capacity: with
every running total bounded by B and the whole remaining workload fitting
under the capacity, every new log entry of a task due within the week is
placed on its deadline target day. -/
theorem foldl_place_log_days (cap : ℚ) :
    ∀ (l : List WTask) (st : WeekState) (B : ℚ),
      st.days.length = 5 →
      (∀ i, i < 5 → dayTotal st.days i ≤ B) →
      (∀ t ∈ l, 0 ≤ t.estTime) →
      B + (l.map WTask.estTime).sum ≤ cap →
      ∀ p ∈ (l.foldl (placeTask cap) st).log,
        p ∈ st.log ∨
          ∀ d : Int, p.1.daysUntilDue = some d → 1 ≤ d → d ≤ 7 →
            p.2 = deadlineTargetDay d := by
  intro l
  induction l with
  | nil =>
    intro st B h5 hB hnn hsum p hp
    exact Or.inl hp
  | cons t tl ih =>
    intro st B h5 hB hnn hsum p hp
    rw [List.foldl_cons] at hp
    have hnn_t : 0 ≤ t.estTime := hnn t (List.mem_cons_self t tl)
    have hsum_tl : 0 ≤ (tl.map WTask.estTime).sum := by
      apply List.sum_nonneg
      intro x hx
      rw [List.mem_map] at hx
      obtain ⟨u, hu, rfl⟩ := hx
      exact hnn u (List.mem_cons_of_mem _ hu)
    have hsum_cons : (List.map WTask.estTime (t :: tl)).sum
        = t.estTime + (tl.map WTask.estTime).sum := by
      simp
    obtain ⟨i, hi5, hfind, hlog⟩ := placeTask_log cap st t
    have h5b : (placeTask cap st t).days.length = 5 := by
      rw [placeTask_days_length]
      exact h5
    have hdt := placeTask_dayTotal cap st t i hfind (by omega)
    have hB2 : ∀ j, j < 5 → dayTotal (placeTask cap st t).days j ≤ B + t.estTime := by
      intro j hj
      rcases eq_or_ne j i with rfl | hne
      · rw [hdt.2]
        have := hB j hj
        linarith
      · rw [hdt.1 j hne]
        have := hB j hj
        linarith
    have hsum2 : (B + t.estTime) + (tl.map WTask.estTime).sum ≤ cap := by
      rw [hsum_cons] at hsum
      linarith
    have ihh := ih (placeTask cap st t) (B + t.estTime) h5b hB2
      (fun u hu => hnn u (List.mem_cons_of_mem _ hu)) hsum2 p hp
    rcases ihh with hin | hprop
    · rw [hlog] at hin
      rcases List.mem_append.mp hin with hin | hin
      · exact Or.inl hin
      · rcases List.mem_singleton.mp hin with rfl
        right
        intro d hdue hd1 hd7
        have htar5 : deadlineTargetDay d < 5 := by
          unfold deadlineTargetDay
          have := min_le_right d (4 : Int)
          omega
        have hfit : dayTotal st.days (deadlineTargetDay d) + t.estTime ≤ cap := by
          have hb := hB _ htar5
          rw [hsum_cons] at hsum
          linarith
        have htarget := findBestDay_deadline t st.days cap d hdue hd1 hd7 hfit
        rw [htarget] at hfind
        exact (Option.some_inj.mp hfind).symm
    · exact Or.inr hprop

/-- C5. Deadline monotonicity: when the whole pool fits within the daily
capacity (so capacity never forces a deviation) and two tasks carry
deadlines d1 < d2 both within the week, the distributor assigns the
sooner-deadline task a day index less than or equal to the day index of
the later one (the master scheduler has no per-task day constraints, so
every pool task is unconstrained). -/
theorem deadline_monotone (pool : List WTask) (startHour endHour : Int)
    (t1 t2 : WTask) (d1 d2 : Int)
    (hm1 : t1 ∈ pool) (_hm2 : t2 ∈ pool)
    (hd1 : t1.daysUntilDue = some d1) (hd2 : t2.daysUntilDue = some d2)
    (h11 : 1 ≤ d1) (hlt : d1 < d2) (h27 : d2 ≤ 7)
    (hnn : ∀ t ∈ pool, 0 ≤ t.estTime)
    (hcap : (pool.map WTask.estTime).sum ≤ dailyCapacity startHour endHour) :
    (∃ i, (t1, i) ∈ (generateWeeklySchedule pool startHour endHour).log) ∧
    (∀ i1 i2, (t1, i1) ∈ (generateWeeklySchedule pool startHour endHour).log →
      (t2, i2) ∈ (generateWeeklySchedule pool startHour endHour).log →
      i1 ≤ i2) := by
  have hperm : List.Perm (List.insertionSort wtaskLe pool) pool :=
    List.perm_insertionSort wtaskLe pool
  constructor
  · exact foldl_place_log_mem (dailyCapacity startHour endHour)
      (List.insertionSort wtaskLe pool) initWeekState t1
      ((List.mem_insertionSort wtaskLe).mpr hm1)
  · intro i1 i2 h1 h2
    have hsum_eq : ((List.insertionSort wtaskLe pool).map WTask.estTime).sum
        = (pool.map WTask.estTime).sum :=
      (hperm.map WTask.estTime).sum_eq
    have hmain := foldl_place_log_days (dailyCapacity startHour endHour)
      (List.insertionSort wtaskLe pool) initWeekState 0 rfl
      (fun i _ => by rw [dayTotal_init])
      (fun u hu => hnn u ((List.mem_insertionSort wtaskLe).mp hu))
      (by rw [zero_add, hsum_eq]; exact hcap)
    have hp1 := hmain (t1, i1) h1
    have hp2 := hmain (t2, i2) h2
    rcases hp1 with h | hprop1
    · cases h
    rcases hp2 with h | hprop2
    · cases h
    have e1 : i1 = deadlineTargetDay d1 := hprop1 d1 hd1 h11 (by omega)
    have e2 : i2 = deadlineTargetDay d2 := hprop2 d2 hd2 (by omega) h27
    rw [e1, e2]
    unfold deadlineTargetDay
    have hmin : min d1 4 ≤ min d2 4 := min_le_min (le_of_lt hlt) le_rfl
    omega

/-- C5 witness: two one-hour tasks due in two and in five days, under an
eight hour work day (capacity 6.4 hours): the sooner task is logged and
its day never comes after the later one. -/
theorem deadline_monotone_witness :
    (∃ i, (reportTask, i) ∈ (generateWeeklySchedule [reportTask, slidesTask] 9 17).log) ∧
    (∀ i1 i2,
      (reportTask, i1) ∈ (generateWeeklySchedule [reportTask, slidesTask] 9 17).log →
      (slidesTask, i2) ∈ (generateWeeklySchedule [reportTask, slidesTask] 9 17).log →
      i1 ≤ i2) :=
  deadline_monotone [reportTask, slidesTask] 9 17 reportTask slidesTask 2 5
    (List.mem_cons_self _ _)
    (List.mem_cons_of_mem _ (List.mem_singleton.mpr rfl))
    rfl rfl (by norm_num) (by norm_num) (by norm_num)
    (by
      intro t ht
      rcases List.mem_cons.mp ht with rfl | ht
      · norm_num [reportTask]
      · rcases List.mem_singleton.mp ht with rfl
        norm_num [slidesTask])
    (by norm_num [reportTask, slidesTask, dailyCapacity])
